import Mathlib

/-!
Verification of the TileDB `DenseTiler` (src/tiledb/sm/query/dense_tiler.cc,
dense_tiler.h).  The tiler decomposes a dense subarray write into fixed-shape
tiles over the array tile grid.  All geometry is done over the domain type `T`,
modelled here as `Int`; `uint64_t` values are modelled as `Nat`, with the
C++ conversion `T -> uint64_t` made explicit as reduction modulo `2 ^ 64`.
Byte stores (tiles, buffers) are lists of bytes; a tile byte is
`Option Nat`, where `none` stands for allocated-but-never-written memory.
-/

namespace DenseTiler

/-- Cell/tile layouts (`Layout::ROW_MAJOR` / `Layout::COL_MAJOR`). -/
inductive Layout where
  | row : Layout
  | col : Layout
deriving DecidableEq, Repr

/-- One array dimension: domain `[domLo, domHi]` and tile extent `ext`
(`Dimension` data used by the tiler). -/
structure Dim where
  domLo : Int
  domHi : Int
  ext : Int
deriving DecidableEq, Repr

/-- A fixed- or var-sized attribute: its cell size in bytes, the var-size
flag, and its fill-value bytes (length `cellSize` for fixed-size ones). -/
structure Attr where
  name : String
  cellSize : Nat
  isVar : Bool
  fill : List Nat
deriving DecidableEq, Repr

/-- The parts of `ArraySchema` consumed by the tiler.  TileDB schemas carry
two independent orders: `cell_order` (cell layout inside a tile) and
`tile_order` (order of tiles in the grid); the tiler uses both. -/
structure Schema where
  dims : List Dim
  cellOrder : Layout
  tileOrder : Layout
  attrs : List Attr
deriving DecidableEq, Repr

/-- The consumed `Subarray`: one unary N-D range plus a traversal layout. -/
structure Subarr where
  ranges : List (Int × Int)
  layout : Layout
deriving DecidableEq, Repr

/-- Default dimension used for out-of-range list access. -/
def dim0 : Dim := ⟨0, 0, 1⟩

/-- The C++ conversion of a (possibly negative) `T` value to `uint64_t`:
reduction modulo `2 ^ 64`. -/
def toU64 (x : Int) : Nat := (x % (2 : Int) ^ 64).toNat

/-- Modelled from the spec: `ArraySchema::attribute(name)` lookup
(attribute metadata access; `array_schema.h` is not part of the sources). -/
def Schema.findAttr (s : Schema) (n : String) : Option Attr :=
  s.attrs.find? (fun a => a.name == n)

/-- Modelled from the spec: `ArraySchema::is_attr(name)`. -/
def Schema.is_attr (s : Schema) (n : String) : Bool :=
  (s.findAttr n).isSome

/-- Modelled from the spec: `ArraySchema::var_size(name)`. -/
def Schema.var_size (s : Schema) (n : String) : Bool :=
  ((s.findAttr n).map (fun a => a.isVar)).getD false

/-- Modelled from the spec: `ArraySchema::cell_size(name)`. -/
def Schema.cell_size (s : Schema) (n : String) : Nat :=
  ((s.findAttr n).map (fun a => a.cellSize)).getD 0

/-- Modelled from the spec: `Attribute::get_fill_value` (fill-value bytes of
length `cell_size`). -/
def Schema.fill_value (s : Schema) (n : String) : List Nat :=
  ((s.findAttr n).map (fun a => a.fill)).getD []

/-- Modelled from the spec: `Dimension::tile_num(range)`, the number of tiles
of dimension `dm` intersecting the range `r`:
`floor((hi - dom_lo)/ext) - floor((lo - dom_lo)/ext) + 1`. -/
def dimTileNum (dm : Dim) (r : Int × Int) : Nat :=
  toU64 ((r.2 - dm.domLo).fdiv dm.ext - (r.1 - dm.domLo).fdiv dm.ext + 1)

/-- Modelled from the spec: `Domain::tile_num(ndrange)`, the product over the
dimensions of the per-dimension intersecting-tile counts. -/
def domTileNum (sch : Schema) (ranges : List (Int × Int)) : Nat :=
  ((sch.dims.zip ranges).map (fun p => dimTileNum p.1 p.2)).prod

/-- Modelled from the spec: `Domain::cell_num_per_tile()`, the product of the
tile extents. -/
def cell_num_per_tile (sch : Schema) : Nat :=
  (sch.dims.map (fun d => toU64 d.ext)).prod

/-- Modelled from the spec: `utils::geometry::intersection`, the componentwise
intersection (clip) of two N-D boxes. -/
def intersection (a b : List (Int × Int)) : List (Int × Int) :=
  a.zipWith (fun x y => (max x.1 y.1, min x.2 y.2)) b

/-- Model of `DenseTiler::calculate_tile_num`: number of tiles intersecting the
subarray. -/
def tile_num (sch : Schema) (sub : Subarr) : Nat :=
  domTileNum sch sub.ranges

/-- Strides with the LAST position equal to 1, each other position the next
one times the next extent (the row-major branch of
`calculate_tile_and_subarray_strides`). -/
def rowStrides : List Nat → List Nat
  | [] => []
  | [_] => [1]
  | _ :: e2 :: rest =>
      let s := rowStrides (e2 :: rest)
      s.headD 1 * e2 :: s

/-- Strides with the FIRST position equal to 1, each other position the
previous one times the previous extent (the col-major branch of
`calculate_tile_and_subarray_strides`). -/
def colStrides (exts : List Nat) : List Nat :=
  (rowStrides exts.reverse).reverse

/-- Model of `DenseTiler::calculate_tile_and_subarray_strides`, tile part: element
strides inside a tile, under the schema cell order, from the tile extents. -/
def tile_strides_el (sch : Schema) : List Nat :=
  match sch.cellOrder with
  | .row => rowStrides (sch.dims.map (fun d => toU64 d.ext))
  | .col => colStrides (sch.dims.map (fun d => toU64 d.ext))

/-- Model of `DenseTiler::calculate_tile_and_subarray_strides`, subarray part: element
strides inside the source buffer, under the subarray layout, from the
per-dimension subarray extents `hi - lo + 1`. -/
def sub_strides_el (_sch : Schema) (sub : Subarr) : List Nat :=
  let subExts := sub.ranges.map (fun r => toU64 (r.2 - r.1 + 1))
  match sub.layout with
  | .row => rowStrides subExts
  | .col => colStrides subExts

/-- Cumulative products `[acc, acc*t0, acc*t0*t1, ...]` mirroring the
`push_back(back * tile_num)` loop of
`calculate_subarray_tile_coord_offsets`. -/
def cumProducts : List Nat → Nat → List Nat
  | [], acc => [acc]
  | t :: rest, acc => acc :: cumProducts rest (acc * t)

/-- Model of `DenseTiler::calculate_subarray_tile_coord_offsets`: the strides used to
split a linear tile id into N-D tile coordinates, under the schema tile
order.  Row-major: push 1, then for `d = D-2 .. 0` push
`back * dimension(d).tile_num(subarray[d])`, and reverse.  Col-major: push 1,
then for `d = 1 .. D-1` push `back * dimension(d).tile_num(subarray[d])`. -/
def sub_tile_coord_offsets (sch : Schema) (sub : Subarr) : List Nat :=
  let D := sch.dims.length
  let tn : Nat → Nat := fun d =>
    dimTileNum (sch.dims.getD d dim0) (sub.ranges.getD d (0, 0))
  match sch.tileOrder with
  | .row => (cumProducts ((List.range (D - 1)).reverse.map tn) 1).reverse
  | .col => cumProducts ((List.range (D - 1)).map (fun i => tn (i + 1))) 1

/-- Model of `DenseTiler::calculate_first_sub_tile_coords`:
`(sub_start - dom_start) / tile_extent` per dimension, with the C++
truncated division on `T`. -/
def first_sub_tile_coords (sch : Schema) (sub : Subarr) : List Nat :=
  (List.range sch.dims.length).map (fun d =>
    let dm := sch.dims.getD d dim0
    let r := sub.ranges.getD d (0, 0)
    toU64 (Int.tdiv (r.1 - dm.domLo) dm.ext))

/-- The division/modulo cascade of `tile_coords_in_sub`: successive
`idx / off`, `idx % off` over a list of offsets. -/
def splitId : List Nat → Nat → List Nat
  | [], _ => []
  | o :: rest, idx => idx / o :: splitId rest (idx % o)

/-- Model of `DenseTiler::tile_coords_in_sub(id)`: the N-D tile coordinates of the
linear id inside the subarray tile domain.  Row-major: split along the
offsets front to back; col-major: back to front, then reverse. -/
def tile_coords_in_sub (sch : Schema) (sub : Subarr) (id : Nat) : List Nat :=
  let offs := sub_tile_coord_offsets sch sub
  match sch.tileOrder with
  | .row => splitId offs id
  | .col => (splitId offs.reverse id).reverse

/-- Model of `DenseTiler::tile_subarray(id)`: the global coordinate box of the tile,
`lo = (coord_in_sub + first_sub_tile_coord) * ext + dom_lo`,
`hi = lo + ext - 1` per dimension. -/
def tile_subarray (sch : Schema) (sub : Subarr) (id : Nat) : List (Int × Int) :=
  let coords := tile_coords_in_sub sch sub id
  let firsts := first_sub_tile_coords sch sub
  (List.range sch.dims.length).map (fun d =>
    let dm := sch.dims.getD d dim0
    let lo := ((coords.getD d 0 + firsts.getD d 0 : Nat) : Int) * dm.ext + dm.domLo
    (lo, lo + dm.ext - 1))

/-- Model of `DenseTiler::CopyPlan` (dense_tiler.h): the per-tile copy description. -/
structure CopyPlan where
  copyEl : Nat
  dimRanges : List (Nat × Nat)
  subStartEl : Nat
  subStridesEl : List Nat
  tileStartEl : Nat
  tileStridesEl : List Nat
deriving DecidableEq, Repr

/-- The row-major fusion loop of `copy_plan`: state `m` stands for
`last_d = m - 1` (`m = 0` is `last_d = -1`); while `cond (last_d + 1)` holds
the accumulator is multiplied by `w last_d` and `last_d` decremented.
Returns `(final last_d + 1, copy_el)`. -/
def fuseRow (w : Nat → Nat) (cond : Nat → Bool) : Nat → Nat → Nat × Nat
  | 0, acc => (0, acc)
  | m + 1, acc =>
      if cond (m + 1) then fuseRow w cond m (acc * w m)
      else (m + 1, acc)

/-- The col-major fusion loop of `copy_plan`: `last_d` runs up from 1 while
`cond (last_d - 1)` holds, multiplying the accumulator by `w last_d`; the
first argument is the remaining iteration count `D - last_d`.
Returns `(final last_d, copy_el)`. -/
def fuseCol (w : Nat → Nat) (cond : Nat → Bool) : Nat → Nat → Nat → Nat × Nat
  | 0, ld, acc => (ld, acc)
  | r + 1, ld, acc =>
      if cond (ld - 1) then fuseCol w cond r (ld + 1) (acc * w ld)
      else (ld, acc)

/-- The local `sub_in_tile` of `copy_plan`: the intersection of the
subarray with the tile box of the id. -/
def sub_in_tile (sch : Schema) (sub : Subarr) (id : Nat) : List (Int × Int) :=
  intersection sub.ranges (tile_subarray sch sub id)

/-- The per-dimension intersection width `hi - lo + 1` of `copy_plan`, as
the `uint64_t` the code computes. -/
def planWidthU (sch : Schema) (sub : Subarr) (id : Nat) (d : Nat) : Nat :=
  toU64 (((sub_in_tile sch sub id).getD d (0, 0)).2 -
    ((sub_in_tile sch sub id).getD d (0, 0)).1 + 1)

/-- The `dim_ranges_` entry of `copy_plan` for a retained dimension:
`{0, (uint64_t)(sub_in_tile[d][1] - sub_in_tile[d][0])}`. -/
def planRangeU (sch : Schema) (sub : Subarr) (id : Nat) (d : Nat) :
    Nat × Nat :=
  (0, toU64 (((sub_in_tile sch sub id).getD d (0, 0)).2 -
    ((sub_in_tile sch sub id).getD d (0, 0)).1))

/-- The fusion test of `copy_plan` on dimension `j`: the intersection spans
the full tile extent along `j` and coincides with the subarray range along
`j`. -/
def planFuseCond (sch : Schema) (sub : Subarr) (id : Nat) (j : Nat) : Bool :=
  decide (((sub_in_tile sch sub id).getD j (0, 0)).2 -
      ((sub_in_tile sch sub id).getD j (0, 0)).1 + 1 =
      (sch.dims.getD j dim0).ext ∧
    ((sub_in_tile sch sub id).getD j (0, 0)).1 =
      (sub.ranges.getD j (0, 0)).1 ∧
    ((sub_in_tile sch sub id).getD j (0, 0)).2 =
      (sub.ranges.getD j (0, 0)).2)

/-- Model of `DenseTiler::copy_plan(id)`. -/
def copy_plan (sch : Schema) (sub : Subarr) (id : Nat) : CopyPlan :=
  let dimNum := sch.dims.length
  let subR := sub.ranges
  let tileLayout := sch.cellOrder
  let subLayout := sub.layout
  let tileStrides := tile_strides_el sch
  let subStrides := sub_strides_el sch sub
  let tileSub := tile_subarray sch sub id
  let subInTile := sub_in_tile sch sub id
  let subStart := (List.range dimNum).foldl (fun acc d =>
    acc + toU64 ((subInTile.getD d (0, 0)).1 - (subR.getD d (0, 0)).1) *
      subStrides.getD d 0) 0
  let tileStart := (List.range dimNum).foldl (fun acc d =>
    acc + toU64 ((subInTile.getD d (0, 0)).1 - (tileSub.getD d (0, 0)).1) *
      tileStrides.getD d 0) 0
  let w : Nat → Nat := planWidthU sch sub id
  let fuseCond : Nat → Bool := planFuseCond sch sub id
  let rangeOf : Nat → Nat × Nat := planRangeU sch sub id
  if dimNum = 1 then
    { copyEl := w 0, dimRanges := [(0, 0)], subStartEl := subStart,
      subStridesEl := subStrides, tileStartEl := tileStart,
      tileStridesEl := tileStrides }
  else if subLayout ≠ tileLayout then
    { copyEl := 1, dimRanges := (List.range dimNum).map rangeOf,
      subStartEl := subStart, subStridesEl := subStrides,
      tileStartEl := tileStart, tileStridesEl := tileStrides }
  else
    match tileLayout with
    | .row =>
        let res := fuseRow w fuseCond (dimNum - 1) (w (dimNum - 1))
        let ranges := if res.1 = 0 then [(0, 0)]
          else (List.range res.1).map rangeOf
        { copyEl := res.2, dimRanges := ranges, subStartEl := subStart,
          subStridesEl := subStrides, tileStartEl := tileStart,
          tileStridesEl := tileStrides }
    | .col =>
        let res := fuseCol w fuseCond (dimNum - 1) 1 (w 0)
        let ranges := if res.1 = dimNum then [(0, 0)]
          else ((List.range dimNum).drop res.1).map rangeOf
        { copyEl := res.2, dimRanges := ranges, subStartEl := subStart,
          subStridesEl := subStrides, tileStartEl := tileStart,
          tileStridesEl := tileStrides }

/-- A writable byte buffer with a cursor (the `Tile` collaborator of the
spec).  A byte is `none` while the underlying allocated memory has never
been written. -/
structure Tile where
  data : List (Option Nat)
  offset : Nat
deriving DecidableEq, Repr

/-- Overwrite `dst` from position `pos` with the bytes of `src` (the part of
`src` that fits); bytes written past the end of `dst` are lost, as a store
past the end of a fixed-size allocation. -/
def storeList : List (Option Nat) → Nat → List Nat → List (Option Nat)
  | [], _, _ => []
  | dst, _ + 1, [] => dst
  | dst, 0, [] => dst
  | b :: rest, p + 1, src => b :: storeList rest p src
  | _ :: rest, 0, s :: srest => some s :: storeList rest 0 srest

/-- Modelled from the spec: `Tile::write(src, nbytes)` appends `nbytes`
bytes at the cursor and advances it. -/
def Tile.write (t : Tile) (src : List Nat) (nbytes : Nat) : Tile :=
  { data := storeList t.data t.offset (src.take nbytes),
    offset := t.offset + nbytes }

/-- Modelled from the spec: `Tile::write(src, absolute_offset, nbytes)`, the
positioned write; the cursor is unchanged. -/
def Tile.writeAt (t : Tile) (src : List Nat) (off nbytes : Nat) : Tile :=
  { data := storeList t.data off (src.take nbytes), offset := t.offset }

/-- Modelled from the spec: `Tile::reset_offset()`. -/
def Tile.reset_offset (t : Tile) : Tile := { t with offset := 0 }

/-- Modelled from the spec: `Tile::init_unfiltered(version, type, total_size,
cell_size, 0)` re-initializes the tile as `total_size` bytes of allocated,
unwritten memory with the cursor at 0. -/
def Tile.init_unfiltered (totalSize : Nat) : Tile :=
  { data := List.replicate totalSize none, offset := 0 }

/-- Model of `DenseTiler::init_tile`: initialize the tile with size
`cell_num_per_tile * cell_size`. -/
def init_tile (sch : Schema) (name : String) (_tile : Tile) : Tile :=
  Tile.init_unfiltered (cell_num_per_tile sch * sch.cell_size name)

/-- The batch built by `fill_tile`: a zero-initialized vector of
`cells * fill.length` bytes into which `fill` is copied `cells` times at
consecutive offsets. -/
def buildBatch (fill : List Nat) (cells : Nat) : List Nat :=
  buildBatchGo fill cells (List.replicate (cells * fill.length) 0) 0
where
  /-- The `memcpy` loop of the batch construction. -/
  buildBatchGo (fill : List Nat) : Nat → List Nat → Nat → List Nat
    | 0, buf, _ => buf
    | i + 1, buf, off =>
        buildBatchGo fill i (storeNat buf off fill) (off + fill.length)
  /-- `storeList` on plain byte lists. -/
  storeNat : List Nat → Nat → List Nat → List Nat
    | [], _, _ => []
    | dst, _ + 1, [] => dst
    | dst, 0, [] => dst
    | b :: rest, p + 1, src => b :: storeNat rest p src
    | _ :: rest, 0, s :: srest => s :: storeNat rest 0 srest

/-- Iterate an appending tile write `n` times. -/
def writeRepeat (t : Tile) (src : List Nat) (nbytes : Nat) : Nat → Tile
  | 0 => t
  | n + 1 => writeRepeat (t.write src nbytes) src nbytes n

/-- Model of `DenseTiler::fill_tile`: fill the tile with the attribute fill value,
one (up to) 1,000,000-cell batch at a time; `batch_num - 1` full batches are
written, then `cell_num % 1,000,000` single cells, and the cursor is
reset. -/
def fill_tile (sch : Schema) (name : String) (t : Tile) : Tile :=
  let fill := sch.fill_value name
  let fillSize := fill.length
  let cellNum := cell_num_per_tile sch
  let batchCellNum : Nat := 1000000
  let lastBatchCellNum := cellNum % batchCellNum
  let batchNum := cellNum / 1000000 + (if lastBatchCellNum > 0 then 1 else 0)
  let batchSize := batchCellNum * fillSize
  let batch := buildBatch fill batchCellNum
  let t1 := if batchNum > 1 then writeRepeat t batch batchSize (batchNum - 1)
    else t
  let t2 := if lastBatchCellNum > 0 then
      writeRepeat t1 fill fillSize lastBatchCellNum
    else t1
  t2.reset_offset

/-- The three error kinds `get_tile` can emit (`Status::DenseTilerError`
messages in the source). -/
inductive TError where
  | invalidTileId : TError
  | unknownAttribute : TError
  | varSizedNotSupported : TError
deriving DecidableEq, Repr

/-- The status returned by `get_tile`. -/
inductive Status where
  | ok : Status
  | error : TError → Status
deriving DecidableEq, Repr

/-- The per-attribute query buffers: attribute name to source byte region. -/
def Buffers := List (String × List Nat)

/-- Model of the lookup `buffers_.get().find(name)->second.buffer_`: the source byte region of
the named attribute. -/
def lookupBuf (bufs : Buffers) (name : String) : List Nat :=
  ((bufs.find? (fun p => p.1 == name)).map (fun p => p.2)).getD []

/-- One carry step of the copy loop of `get_tile`, on REVERSED range and
coordinate lists: increment the innermost coordinate, resetting and carrying
left while it exceeds its range; returns the index (in original order) of
the last dimension changed, or `none` when the loop is complete. -/
def advanceRev : List (Nat × Nat) → List Nat → Option Nat × List Nat
  | r :: rs, c :: cs =>
      if c + 1 > r.2 then
        let res := advanceRev rs cs
        (res.1, r.1 :: res.2)
      else (some rs.length, (c + 1) :: cs)
  | _, cs => (none, cs)

/-- The coordinate-advance step of the copy loop, in original dimension
order. -/
def advance (ranges : List (Nat × Nat)) (coords : List Nat) :
    Option Nat × List Nat :=
  let res := advanceRev ranges.reverse coords.reverse
  (res.1, res.2.reverse)

/-- The offset-update rule of the copy loop: position `k` is incremented by
`delta` and every position after `k` is set to the updated value at `k`
(`offsets[i] = offsets[i-1]` cascade). -/
def cascade : List Nat → Nat → Nat → List Nat
  | [], _, _ => []
  | v :: rest, 0, delta => (v + delta) :: List.replicate rest.length (v + delta)
  | v :: rest, k + 1, delta => v :: cascade rest k delta

/-- The state of the copy loop of `get_tile`. -/
structure LoopState where
  tile : Tile
  tileOffsets : List Nat
  subOffsets : List Nat
  cellCoords : List Nat

/-- The copy loop of `get_tile`: per iteration one slab of `copyNBytes`
bytes is written from the source buffer at the innermost sub offset to the
tile at the innermost tile offset, then the cell coordinates advance with
carry and the offsets of the changed dimension and all inner dimensions are
updated.  The fuel is the exact iteration count of the loop. -/
def copyIter (buff : List Nat) (copyNBytes : Nat) (dimRanges : List (Nat × Nat))
    (tileStridesN subStridesN : List Nat) : Nat → LoopState → Tile
  | 0, st => st.tile
  | f + 1, st =>
      let d := dimRanges.length - 1
      let t := st.tile.writeAt (buff.drop (st.subOffsets.getD d 0))
        (st.tileOffsets.getD d 0) copyNBytes
      let adv := advance dimRanges st.cellCoords
      match adv.1 with
      | none => t
      | some k =>
          copyIter buff copyNBytes dimRanges tileStridesN subStridesN f
            { tile := t,
              tileOffsets := cascade st.tileOffsets k (tileStridesN.getD k 0),
              subOffsets := cascade st.subOffsets k (subStridesN.getD k 0),
              cellCoords := adv.2 }

/-- Model of `DenseTiler::get_tile(id, name, tile)`: validate, initialize and fill
the tile, then run the copy loop of the plan; returns the status and the
resulting tile (the input tile unchanged on error). -/
def get_tile (sch : Schema) (sub : Subarr) (bufs : Buffers) (id : Nat)
    (name : String) (tile : Tile) : Status × Tile :=
  if id ≥ tile_num sch sub then (.error .invalidTileId, tile)
  else if ¬ sch.is_attr name then (.error .unknownAttribute, tile)
  else if sch.var_size name then (.error .varSizedNotSupported, tile)
  else
    let t0 := init_tile sch name tile
    let t1 := fill_tile sch name t0
    let plan := copy_plan sch sub id
    let cellSize := sch.cell_size name
    let subOffset := plan.subStartEl * cellSize
    let tileOffset := plan.tileStartEl * cellSize
    let copyNBytes := plan.copyEl * cellSize
    let subStridesN := plan.subStridesEl.map (fun s => s * cellSize)
    let tileStridesN := plan.tileStridesEl.map (fun s => s * cellSize)
    let buff := lookupBuf bufs name
    let dimRanges := plan.dimRanges
    let dimNum := dimRanges.length
    let fuel := (dimRanges.map (fun r => r.2 + 1 - r.1)).prod
    let st : LoopState :=
      { tile := t1,
        tileOffsets := List.replicate dimNum tileOffset,
        subOffsets := List.replicate dimNum subOffset,
        cellCoords := dimRanges.map (fun r => r.1) }
    let t2 := copyIter buff copyNBytes dimRanges tileStridesN subStridesN
      fuel st
    (.ok, t2.reset_offset)

/-- The var-sized overload `DenseTiler::get_tile(id, name, tile_off,
tile_var)`: the body casts every argument to void and returns `Status::Ok`. -/
def get_tile_var (_sch : Schema) (_sub : Subarr) (_bufs : Buffers) (_id : Nat)
    (_name : String) (tileOff tileVar : Tile) : Status × Tile × Tile :=
  (.ok, tileOff, tileVar)

/-- The total element count accounted by the copy plans of all tile ids:
`Σ over id < tile_num of copy_el(id) * Π over dim_ranges(id) of
(hi - lo + 1)` (the quantity of invariant P1 of the spec). -/
def planTotal (sch : Schema) (sub : Subarr) : Nat :=
  ((List.range (tile_num sch sub)).map (fun id =>
    let p := copy_plan sch sub id
    p.copyEl * (p.dimRanges.map (fun r => r.2 - r.1 + 1)).prod)).sum

/-! ## Concrete instances

Scenario S1 of the spec (1D, int32, dom=[1,10], ext=5, sub=[3,6],
buffer {1,2,3,4}, fill INT32_MIN, little-endian bytes), the 2D row/row
array of the tests (dom=(1..10, 1..30), ext=(5,10)), and a 1D array whose
tile holds exactly 1,000,000 cells. -/

/-- Scenario S1 test schema: 1D, dom=[1,10], ext=5, one int32 attribute `a` with
fill value `INT32_MIN` (bytes `[0,0,0,128]` little-endian). -/
def exSchema1D : Schema :=
  { dims := [⟨1, 10, 5⟩], cellOrder := .row, tileOrder := .row,
    attrs := [⟨"a", 4, false, [0, 0, 0, 128]⟩] }

/-- Scenario S1 subarray `[3,6]`, row-major. -/
def exSub1D : Subarr := { ranges := [(3, 6)], layout := .row }

/-- Scenario S1 source buffer: int32 cells `{1,2,3,4}` as little-endian bytes. -/
def exBufs1D : Buffers :=
  [("a", [1, 0, 0, 0, 2, 0, 0, 0, 3, 0, 0, 0, 4, 0, 0, 0])]

/-- Schema of the 2D row/row tests: dom=(1..10, 1..30), ext=(5,10). -/
def exSchema2D : Schema :=
  { dims := [⟨1, 10, 5⟩, ⟨1, 30, 10⟩], cellOrder := .row, tileOrder := .row,
    attrs := [⟨"a", 4, false, [0, 0, 0, 128]⟩] }

/-- A 2D subarray with one tile along dimension 0 and two tiles along
dimension 1: `[1,5] x [1,20]`. -/
def exSub2Dasym : Subarr := { ranges := [(1, 5), (1, 20)], layout := .row }

/-- The 2D subarray `[4,6] x [18,22]` of scenario S5. -/
def exSub2D : Subarr := { ranges := [(4, 6), (18, 22)], layout := .row }

/-- Schema in one dimension whose single tile holds exactly 1,000,000 cells (the fill
batch size), with a 1-byte attribute `b` of fill value 7. -/
def exSchemaFill : Schema :=
  { dims := [⟨1, 1000000, 1000000⟩], cellOrder := .row, tileOrder := .row,
    attrs := [⟨"b", 1, false, [7]⟩] }

/-- Subarray `[1,1]` of the fill-batch instance. -/
def exSubFill : Subarr := { ranges := [(1, 1)], layout := .row }

/-- One-cell source buffer (byte 5) of the fill-batch instance. -/
def exBufsFill : Buffers := [("b", [5])]

/-- A nonempty pre-existing destination tile, used to observe that error
paths leave the tile untouched. -/
def exTileJunk : Tile := { data := [some 9], offset := 3 }

/-! ## Helper lemmas -/

/-- Reading `getD` of a map over `List.range` evaluates the function,
below the length. -/
theorem getD_range_map {α : Type} (f : Nat → α) (dflt : α) {n d : Nat}
    (hd : d < n) : ((List.range n).map f).getD d dflt = f d := by
  have hlen : d < ((List.range n).map f).length := by
    simpa using hd
  rw [List.getD_eq_getElem _ _ hlen]
  simp

/-- Reading `getD` of a map evaluates the function below the length. -/
theorem getD_map_lt {α β : Type} (f : α → β) (l : List α) (dflt : α)
    (dfltb : β) {d : Nat} (hd : d < l.length) :
    (l.map f).getD d dfltb = f (l.getD d dflt) := by
  have hlen : d < (l.map f).length := by simpa using hd
  rw [List.getD_eq_getElem _ _ hlen, List.getD_eq_getElem _ _ hd]
  simp

/-- The `T -> uint64_t` conversion is the identity on `[0, 2^64)`. -/
theorem toU64_eq_toNat {x : Int} (h0 : 0 ≤ x) (h1 : x < 2 ^ 64) :
    toU64 x = x.toNat := by
  unfold toU64
  rw [Int.emod_eq_of_lt h0 (by exact_mod_cast h1)]

/-! ## Theorems -/

/-- Claim C10: The var-sized overload `get_tile(id, name, tile_off, tile_var)`
returns Ok for every input, including invalid ids and unknown attribute
names, and never modifies either tile. -/
theorem claim_C10 (sch : Schema) (sub : Subarr) (bufs : Buffers) (id : Nat)
    (name : String) (tileOff tileVar : Tile) :
    get_tile_var sch sub bufs id name tileOff tileVar =
      (.ok, tileOff, tileVar) := rfl

/-- Claim C2: `get_tile` errs with `invalidTileId` exactly when
`id ≥ tile_num`, with `unknownAttribute` exactly when the id is valid but
the name is no attribute, and with `varSizedNotSupported` exactly when the
id is valid and the name is a var-sized attribute; on every error the
destination tile is returned unchanged, and when none of the three
conditions holds the call succeeds. -/
theorem claim_C2 (sch : Schema) (sub : Subarr) (bufs : Buffers) (id : Nat)
    (name : String) (tile : Tile) :
    ((get_tile sch sub bufs id name tile).1 = .error .invalidTileId ↔
      tile_num sch sub ≤ id) ∧
    ((get_tile sch sub bufs id name tile).1 = .error .unknownAttribute ↔
      id < tile_num sch sub ∧ ¬ sch.is_attr name) ∧
    ((get_tile sch sub bufs id name tile).1 = .error .varSizedNotSupported ↔
      id < tile_num sch sub ∧ sch.is_attr name ∧ sch.var_size name) ∧
    (∀ e, (get_tile sch sub bufs id name tile).1 = .error e →
      (get_tile sch sub bufs id name tile).2 = tile) ∧
    (id < tile_num sch sub → sch.is_attr name → ¬ sch.var_size name →
      (get_tile sch sub bufs id name tile).1 = .ok) := by
  unfold get_tile
  split_ifs with h1 h2 h3 <;>
    simp_all [not_le, le_of_not_lt]

/-- Witness for C2 at a concrete input: `get_tile` with tile id 10 on the
two-tile S1 instance errs and hands the junk tile back unchanged. -/
theorem claim_C2_witness :
    (get_tile exSchema1D exSub1D exBufs1D 10 "a" exTileJunk).2 =
      exTileJunk := by
  have h := claim_C2 exSchema1D exSub1D exBufs1D 10 "a" exTileJunk
  exact h.2.2.2.1 .invalidTileId (by decide)

/-- Claim C8: Scenario S1: two tiles; tile 0 materializes to
`{MIN,MIN,1,2,3}` and tile 1 to `{4,MIN,MIN,MIN,MIN}` (little-endian int32
bytes); the two copy plans carry the stated fields. -/
theorem claim_C8 :
    tile_num exSchema1D exSub1D = 2 ∧
    (get_tile exSchema1D exSub1D exBufs1D 0 "a" exTileJunk).1 = .ok ∧
    (get_tile exSchema1D exSub1D exBufs1D 0 "a" exTileJunk).2.data =
      ([0, 0, 0, 128, 0, 0, 0, 128, 1, 0, 0, 0, 2, 0, 0, 0, 3, 0, 0, 0] :
        List Nat).map some ∧
    (get_tile exSchema1D exSub1D exBufs1D 1 "a" exTileJunk).1 = .ok ∧
    (get_tile exSchema1D exSub1D exBufs1D 1 "a" exTileJunk).2.data =
      ([4, 0, 0, 0, 0, 0, 0, 128, 0, 0, 0, 128, 0, 0, 0, 128, 0, 0, 0, 128] :
        List Nat).map some ∧
    (copy_plan exSchema1D exSub1D 0).copyEl = 3 ∧
    (copy_plan exSchema1D exSub1D 0).subStartEl = 0 ∧
    (copy_plan exSchema1D exSub1D 0).tileStartEl = 2 ∧
    (copy_plan exSchema1D exSub1D 0).dimRanges = [(0, 0)] ∧
    (copy_plan exSchema1D exSub1D 1).copyEl = 1 ∧
    (copy_plan exSchema1D exSub1D 1).subStartEl = 3 ∧
    (copy_plan exSchema1D exSub1D 1).tileStartEl = 0 := by
  refine ⟨by decide, by decide, by decide, by decide, by decide, by decide,
    by decide, by decide, by decide, by decide, by decide, by decide⟩

/-- Claim C1, failing input:  On the 1D array whose tile holds exactly
1,000,000 cells — the fill batch size — `get_tile` returns Ok but the fill
step writes nothing (`batch_num = 1`, so `batch_num - 1 = 0` full batches
and `cell_num % 1,000,000 = 0` remainder cells), leaving every cell outside
the copied region as unwritten memory: byte 1 of the produced tile is
neither the fill value 7 nor a byte of the source buffer, while byte 0
received the copied source byte 5. -/
theorem claim_C1_fill_gap :
    (get_tile exSchemaFill exSubFill exBufsFill 0 "b" exTileJunk).1 = .ok ∧
    (get_tile exSchemaFill exSubFill exBufsFill 0 "b" exTileJunk).2.data.getD
      0 none = some 5 ∧
    (get_tile exSchemaFill exSubFill exBufsFill 0 "b" exTileJunk).2.data.getD
      1 none = none ∧
    exSchemaFill.fill_value "b" = [7] ∧
    cell_num_per_tile exSchemaFill = 1000000 := by
  refine ⟨by decide, by decide, by decide, by decide, by decide⟩

/-- Claim C3, failing input:  On the 2D row/row array with one tile along
dimension 0 and two along dimension 1, `calculate_subarray_tile_coord_offsets`
yields offsets `[1, 1]` (it multiplies by the tile count of dimension `d`
instead of `d+1`), so tile id 1 resolves to tile coordinates `(1, 0)`
instead of `(0, 1)`: the copy plans of the two tile ids account for
`50 + 10 * 2^64` elements (the `2^64` arising from the empty intersection
width `-1` cast to `uint64_t`), not the 100 cells of the subarray. -/
theorem claim_C3_plan_sum_gap :
    tile_num exSchema2D exSub2Dasym = 2 ∧
    sub_tile_coord_offsets exSchema2D exSub2Dasym = [1, 1] ∧
    tile_coords_in_sub exSchema2D exSub2Dasym 1 = [1, 0] ∧
    planTotal exSchema2D exSub2Dasym = 50 + 10 * 2 ^ 64 ∧
    (exSub2Dasym.ranges.map (fun r => (r.2 - r.1 + 1).toNat)).prod = 100 ∧
    planTotal exSchema2D exSub2Dasym ≠
      (exSub2Dasym.ranges.map (fun r => (r.2 - r.1 + 1).toNat)).prod := by
  refine ⟨by decide, by decide, by decide, by decide, by decide, by decide⟩

/-- Claim C9: The produced tile depends only on (schema, subarray, the source
buffer of the requested attribute, id, destination tile): two buffer maps
agreeing on the requested attribute give byte-for-byte equal results, so
the contents of buffers for other attributes are irrelevant; determinism
and independence of call order hold because `get_tile` is a function of
these arguments alone. -/
theorem claim_C9 (sch : Schema) (sub : Subarr) (bufsA bufsB : Buffers)
    (id : Nat) (name : String) (tile : Tile)
    (h : lookupBuf bufsA name = lookupBuf bufsB name) :
    get_tile sch sub bufsA id name tile =
      get_tile sch sub bufsB id name tile := by
  unfold get_tile
  rw [h]

/-- Witness for C9: adding a buffer for another attribute does not change
the produced tile of S1. -/
theorem claim_C9_witness :
    get_tile exSchema1D exSub1D exBufs1D 0 "a" exTileJunk =
      get_tile exSchema1D exSub1D (("z", [9]) :: exBufs1D) 0 "a"
        exTileJunk :=
  claim_C9 exSchema1D exSub1D exBufs1D (("z", [9]) :: exBufs1D) 0 "a"
    exTileJunk (by decide)

/-- Claim C6: `tile_subarray(id)` returns, per dimension, the box with
`lo = (tile_coords_in_sub[d] + first_sub_tile_coords[d]) * ext[d] +
dom_lo[d]` and `hi = lo + ext[d] - 1`; the box spans the full tile extent
(`hi - lo + 1 = ext[d]`) regardless of where the domain ends. -/
theorem claim_C6 (sch : Schema) (sub : Subarr) (id d : Nat)
    (hd : d < sch.dims.length) :
    ((tile_subarray sch sub id).getD d (0, 0)).1 =
      (((tile_coords_in_sub sch sub id).getD d 0 +
        (first_sub_tile_coords sch sub).getD d 0 : Nat) : Int) *
        (sch.dims.getD d dim0).ext + (sch.dims.getD d dim0).domLo ∧
    ((tile_subarray sch sub id).getD d (0, 0)).2 =
      ((tile_subarray sch sub id).getD d (0, 0)).1 +
        (sch.dims.getD d dim0).ext - 1 ∧
    ((tile_subarray sch sub id).getD d (0, 0)).2 -
        ((tile_subarray sch sub id).getD d (0, 0)).1 + 1 =
      (sch.dims.getD d dim0).ext := by
  unfold tile_subarray
  rw [getD_range_map _ _ hd]
  refine ⟨rfl, rfl, by ring⟩

/-- Witness for C6: the second tile of S1 is the box `[6, 10]`,
spanning the full extent 5 past the subarray. -/
theorem claim_C6_witness :
    ((tile_subarray exSchema1D exSub1D 1).getD 0 (0, 0)).1 =
      (((tile_coords_in_sub exSchema1D exSub1D 1).getD 0 0 +
        (first_sub_tile_coords exSchema1D exSub1D).getD 0 0 : Nat) : Int) *
        (exSchema1D.dims.getD 0 dim0).ext +
        (exSchema1D.dims.getD 0 dim0).domLo ∧
    ((tile_subarray exSchema1D exSub1D 1).getD 0 (0, 0)).1 = 6 ∧
    ((tile_subarray exSchema1D exSub1D 1).getD 0 (0, 0)).2 = 10 := by
  have h := claim_C6 exSchema1D exSub1D 1 0 (by decide)
  exact ⟨h.1, by decide, by decide⟩

/-- Accumulating a sum by `foldl` equals adding the sum of the mapped
list. -/
theorem foldl_add_map (f : Nat → Nat) : ∀ (l : List Nat) (n : Nat),
    l.foldl (fun acc d => acc + f d) n = n + (l.map f).sum
  | [], n => by simp
  | x :: xs, n => by
      simp only [List.foldl_cons, List.map_cons, List.sum_cons,
        foldl_add_map f xs (n + f x)]
      ring

/-- The length of `tile_subarray` is the dimension count. -/
theorem tile_subarray_length (sch : Schema) (sub : Subarr) (id : Nat) :
    (tile_subarray sch sub id).length = sch.dims.length := by
  unfold tile_subarray
  simp

/-- Componentwise reading of `intersection`, below both lengths. -/
theorem intersection_getD {a b : List (Int × Int)} {d : Nat}
    (ha : d < a.length) (hb : d < b.length) :
    (intersection a b).getD d (0, 0) =
      (max (a.getD d (0, 0)).1 (b.getD d (0, 0)).1,
        min (a.getD d (0, 0)).2 (b.getD d (0, 0)).2) := by
  unfold intersection
  have hlen : d <
      (a.zipWith (fun x y => (max x.1 y.1, min x.2 y.2)) b).length := by
    rw [List.length_zipWith]
    omega
  rw [List.getD_eq_getElem _ _ hlen, List.getElem_zipWith,
    List.getD_eq_getElem _ _ ha, List.getD_eq_getElem _ _ hb]

/-- The starting offsets of every copy plan are the accumulation loops over
the dimensions, whatever branch builds the plan. -/
theorem copy_plan_startEls (sch : Schema) (sub : Subarr) (id : Nat) :
    (copy_plan sch sub id).subStartEl =
      (List.range sch.dims.length).foldl (fun acc d =>
        acc + toU64 (((intersection sub.ranges
            (tile_subarray sch sub id)).getD d (0, 0)).1 -
          (sub.ranges.getD d (0, 0)).1) * (sub_strides_el sch sub).getD d 0)
        0 ∧
    (copy_plan sch sub id).tileStartEl =
      (List.range sch.dims.length).foldl (fun acc d =>
        acc + toU64 (((intersection sub.ranges
            (tile_subarray sch sub id)).getD d (0, 0)).1 -
          ((tile_subarray sch sub id).getD d (0, 0)).1) *
          (tile_strides_el sch).getD d 0) 0 := by
  constructor <;>
    · simp only [copy_plan, sub_in_tile]
      split_ifs <;> first
        | rfl
        | (cases h : sch.cellOrder <;> simp only [h])

/-- Claim C5: For every tile id (with a subarray of matching rank and offsets
within `uint64` range), the copy plan sets
`sub_start_el = Σ_d (sub_in_tile[d].lo - sub_lo[d]) * sub_strides_el[d]` and
`tile_start_el = Σ_d (sub_in_tile[d].lo - tile_sub[d].lo) * tile_strides_el[d]`,
where `sub_in_tile` is the componentwise intersection of the subarray with
`tile_subarray(id)`. -/
theorem claim_C5 (sch : Schema) (sub : Subarr) (id : Nat)
    (hLen : sub.ranges.length = sch.dims.length)
    (hb : ∀ d < sch.dims.length,
      ((intersection sub.ranges (tile_subarray sch sub id)).getD d (0, 0)).1 -
          (sub.ranges.getD d (0, 0)).1 < 2 ^ 64 ∧
        ((intersection sub.ranges (tile_subarray sch sub id)).getD d
            (0, 0)).1 -
          ((tile_subarray sch sub id).getD d (0, 0)).1 < 2 ^ 64) :
    (copy_plan sch sub id).subStartEl =
      ((List.range sch.dims.length).map (fun d =>
        (((intersection sub.ranges (tile_subarray sch sub id)).getD d
            (0, 0)).1 -
          (sub.ranges.getD d (0, 0)).1).toNat *
          (sub_strides_el sch sub).getD d 0)).sum ∧
    (copy_plan sch sub id).tileStartEl =
      ((List.range sch.dims.length).map (fun d =>
        (((intersection sub.ranges (tile_subarray sch sub id)).getD d
            (0, 0)).1 -
          ((tile_subarray sch sub id).getD d (0, 0)).1).toNat *
          (tile_strides_el sch).getD d 0)).sum := by
  have hget : ∀ d < sch.dims.length,
      (intersection sub.ranges (tile_subarray sch sub id)).getD d (0, 0) =
        (max (sub.ranges.getD d (0, 0)).1
          ((tile_subarray sch sub id).getD d (0, 0)).1,
          min (sub.ranges.getD d (0, 0)).2
            ((tile_subarray sch sub id).getD d (0, 0)).2) := by
    intro d hd
    exact intersection_getD (by omega) (by rw [tile_subarray_length]; omega)
  obtain ⟨h1, h2⟩ := copy_plan_startEls sch sub id
  constructor
  · rw [h1, foldl_add_map, Nat.zero_add]
    refine congrArg List.sum (List.map_congr_left ?_)
    intro d hd
    have hdlt : d < sch.dims.length := List.mem_range.mp hd
    have hnn : 0 ≤ ((intersection sub.ranges
        (tile_subarray sch sub id)).getD d (0, 0)).1 -
        (sub.ranges.getD d (0, 0)).1 := by
      rw [hget d hdlt]
      simp [sub_nonneg, le_max_left]
    rw [toU64_eq_toNat hnn ((hb d hdlt).1)]
  · rw [h2, foldl_add_map, Nat.zero_add]
    refine congrArg List.sum (List.map_congr_left ?_)
    intro d hd
    have hdlt : d < sch.dims.length := List.mem_range.mp hd
    have hnn : 0 ≤ ((intersection sub.ranges
        (tile_subarray sch sub id)).getD d (0, 0)).1 -
        ((tile_subarray sch sub id).getD d (0, 0)).1 := by
      rw [hget d hdlt]
      simp [sub_nonneg, le_max_right]
    rw [toU64_eq_toNat hnn ((hb d hdlt).2)]

/-- Witness for C5 at S1, tile 1: both starting offsets match the claimed
sums, which evaluate to 3 and 0. -/
theorem claim_C5_witness :
    (copy_plan exSchema1D exSub1D 1).subStartEl = 3 ∧
    (copy_plan exSchema1D exSub1D 1).tileStartEl = 0 := by
  have h := claim_C5 exSchema1D exSub1D 1 (by decide)
    (by
      intro d hd
      have hd0 : d = 0 := by
        simp [exSchema1D] at hd
        exact hd
      subst hd0
      exact ⟨by decide, by decide⟩)
  exact ⟨h.1.trans (by decide), h.2.trans (by decide)⟩

/-- Length preservation of `rowStrides`. -/
theorem rowStrides_length : ∀ l : List Nat, (rowStrides l).length = l.length
  | [] => rfl
  | [_] => rfl
  | _ :: b :: rest => by
      simp only [rowStrides, List.length_cons, rowStrides_length (b :: rest)]

/-- The last row-major stride is 1. -/
theorem rowStrides_getD_last : ∀ l : List Nat, l ≠ [] →
    (rowStrides l).getD (l.length - 1) 0 = 1
  | [_], _ => rfl
  | _ :: b :: rest, _ => by
      have ih := rowStrides_getD_last (b :: rest) (by simp)
      simp only [rowStrides, List.length_cons]
      rw [show rest.length + 1 + 1 - 1 = rest.length + 1 from rfl,
        List.getD_cons_succ]
      simpa using ih

/-- Each row-major stride is the next stride times the next extent. -/
theorem rowStrides_getD_step : ∀ (l : List Nat) (d : Nat), d + 1 < l.length →
    (rowStrides l).getD d 0 =
      (rowStrides l).getD (d + 1) 0 * l.getD (d + 1) 0
  | [], _, h => by simp at h
  | [_], _, h => by simp at h
  | _ :: b :: rest, 0, _ => by
      cases hs : rowStrides (b :: rest) with
      | nil =>
          have hl := rowStrides_length (b :: rest)
          rw [hs] at hl
          simp at hl
      | cons y ys => simp [rowStrides, hs]
  | a :: b :: rest, d + 1, h => by
      have ih := rowStrides_getD_step (b :: rest) d (by simpa using h)
      simp only [rowStrides, List.getD_cons_succ]
      exact ih

/-- Reading `getD` through `List.reverse`. -/
theorem getD_reverse {l : List Nat} {i : Nat} (h : i < l.length) :
    l.reverse.getD i 0 = l.getD (l.length - 1 - i) 0 := by
  have h1 : i < l.reverse.length := by simpa using h
  have h2 : l.length - 1 - i < l.length := by omega
  rw [List.getD_eq_getElem _ _ h1, List.getD_eq_getElem _ _ h2,
    List.getElem_reverse]

/-- Length preservation of `colStrides`. -/
theorem colStrides_length (l : List Nat) : (colStrides l).length = l.length := by
  unfold colStrides
  rw [List.length_reverse, rowStrides_length, List.length_reverse]

/-- The first col-major stride is 1. -/
theorem colStrides_getD_first (l : List Nat) (h : l ≠ []) :
    (colStrides l).getD 0 0 = 1 := by
  have hpos : 0 < l.length := List.length_pos.mpr h
  have hlen : (rowStrides l.reverse).length = l.length := by
    rw [rowStrides_length, List.length_reverse]
  unfold colStrides
  rw [getD_reverse (by omega)]
  have hlast := rowStrides_getD_last l.reverse (by simpa using h)
  rw [List.length_reverse] at hlast
  rw [hlen]
  simpa using hlast

/-- Each col-major stride is the previous stride times the previous
extent. -/
theorem colStrides_getD_step (l : List Nat) (d : Nat) (h : d + 1 < l.length) :
    (colStrides l).getD (d + 1) 0 = (colStrides l).getD d 0 * l.getD d 0 := by
  have hlen : (rowStrides l.reverse).length = l.length := by
    rw [rowStrides_length, List.length_reverse]
  unfold colStrides
  rw [getD_reverse (by omega), getD_reverse (by omega), hlen]
  have hstep := rowStrides_getD_step l.reverse (l.length - 2 - d)
    (by rw [List.length_reverse]; omega)
  have hidx1 : l.length - 1 - (d + 1) = l.length - 2 - d := by omega
  have hidx2 : l.length - 2 - d + 1 = l.length - 1 - d := by omega
  rw [hidx1, hstep, hidx2]
  congr 1
  rw [getD_reverse (by omega)]
  congr 1
  omega

/-- Membership of an in-range `getD` value. -/
theorem getD_mem {α : Type} {l : List α} {d : Nat} (dflt : α)
    (h : d < l.length) : l.getD d dflt ∈ l := by
  rw [List.getD_eq_getElem _ _ h]
  exact List.getElem_mem h

/-- Claim C7: The stride arrays satisfy the claimed recurrences: under a
row-major order the last stride is 1 and each stride is the next stride
times the next extent; under col-major the first stride is 1 and each
stride is the previous stride times the previous extent — for
`tile_strides_el` with the tile extents under the cell order within tiles,
and for `sub_strides_el` with the subarray extents `sub_hi - sub_lo + 1`
under the subarray order. -/
theorem claim_C7 (sch : Schema) (sub : Subarr) (hD : sch.dims ≠ [])
    (hLen : sub.ranges.length = sch.dims.length)
    (hext : ∀ dm ∈ sch.dims, 0 ≤ dm.ext ∧ dm.ext < 2 ^ 64)
    (hsub : ∀ r ∈ sub.ranges, 0 ≤ r.2 - r.1 + 1 ∧ r.2 - r.1 + 1 < 2 ^ 64) :
    (sch.cellOrder = .row →
      (tile_strides_el sch).getD (sch.dims.length - 1) 0 = 1 ∧
      ∀ d, d + 1 < sch.dims.length →
        (tile_strides_el sch).getD d 0 =
          (tile_strides_el sch).getD (d + 1) 0 *
            (sch.dims.getD (d + 1) dim0).ext.toNat) ∧
    (sch.cellOrder = .col →
      (tile_strides_el sch).getD 0 0 = 1 ∧
      ∀ d, d + 1 < sch.dims.length →
        (tile_strides_el sch).getD (d + 1) 0 =
          (tile_strides_el sch).getD d 0 *
            (sch.dims.getD d dim0).ext.toNat) ∧
    (sub.layout = .row →
      (sub_strides_el sch sub).getD (sch.dims.length - 1) 0 = 1 ∧
      ∀ d, d + 1 < sch.dims.length →
        (sub_strides_el sch sub).getD d 0 =
          (sub_strides_el sch sub).getD (d + 1) 0 *
            ((sub.ranges.getD (d + 1) (0, 0)).2 -
              (sub.ranges.getD (d + 1) (0, 0)).1 + 1).toNat) ∧
    (sub.layout = .col →
      (sub_strides_el sch sub).getD 0 0 = 1 ∧
      ∀ d, d + 1 < sch.dims.length →
        (sub_strides_el sch sub).getD (d + 1) 0 =
          (sub_strides_el sch sub).getD d 0 *
            ((sub.ranges.getD d (0, 0)).2 -
              (sub.ranges.getD d (0, 0)).1 + 1).toNat) := by
  have hExtsLen : (sch.dims.map (fun d => toU64 d.ext)).length =
      sch.dims.length := by simp
  have hExtsNe : sch.dims.map (fun d => toU64 d.ext) ≠ [] := by
    simp [hD]
  have hExtsGet : ∀ d, d < sch.dims.length →
      (sch.dims.map (fun dm => toU64 dm.ext)).getD d 0 =
        (sch.dims.getD d dim0).ext.toNat := by
    intro d hd
    rw [getD_map_lt _ _ dim0 _ hd]
    have hm := getD_mem dim0 hd
    exact toU64_eq_toNat (hext _ hm).1 (hext _ hm).2
  have hSubLen : (sub.ranges.map (fun r => toU64 (r.2 - r.1 + 1))).length =
      sub.ranges.length := by simp
  have hSubNe : sub.ranges.map (fun r => toU64 (r.2 - r.1 + 1)) ≠ [] := by
    have : sub.ranges ≠ [] := by
      intro hnil
      rw [hnil] at hLen
      exact hD (List.length_eq_zero.mp hLen.symm)
    simp [this]
  have hSubGet : ∀ d, d < sub.ranges.length →
      (sub.ranges.map (fun r => toU64 (r.2 - r.1 + 1))).getD d 0 =
        ((sub.ranges.getD d (0, 0)).2 -
          (sub.ranges.getD d (0, 0)).1 + 1).toNat := by
    intro d hd
    rw [getD_map_lt _ _ (0, 0) _ hd]
    have hm := getD_mem (0, 0) hd
    exact toU64_eq_toNat (hsub _ hm).1 (hsub _ hm).2
  refine ⟨fun hco => ?_, fun hco => ?_, fun hso => ?_, fun hso => ?_⟩
  · unfold tile_strides_el
    rw [hco]
    constructor
    · rw [show sch.dims.length - 1 =
        (sch.dims.map (fun d => toU64 d.ext)).length - 1 from by
          rw [hExtsLen]]
      exact rowStrides_getD_last _ hExtsNe
    · intro d hd
      rw [rowStrides_getD_step _ d (by rw [hExtsLen]; omega),
        hExtsGet (d + 1) (by omega)]
  · unfold tile_strides_el
    rw [hco]
    constructor
    · exact colStrides_getD_first _ hExtsNe
    · intro d hd
      rw [colStrides_getD_step _ d (by rw [hExtsLen]; omega),
        hExtsGet d (by omega)]
  · unfold sub_strides_el
    rw [hso]
    constructor
    · rw [show sch.dims.length - 1 =
        (sub.ranges.map (fun r => toU64 (r.2 - r.1 + 1))).length - 1 from by
          rw [hSubLen, hLen]]
      exact rowStrides_getD_last _ hSubNe
    · intro d hd
      rw [rowStrides_getD_step _ d (by rw [hSubLen, hLen]; omega),
        hSubGet (d + 1) (by omega)]
  · unfold sub_strides_el
    rw [hso]
    constructor
    · exact colStrides_getD_first _ hSubNe
    · intro d hd
      rw [colStrides_getD_step _ d (by rw [hSubLen, hLen]; omega),
        hSubGet d (by omega)]

/-- Witness for C7 on the 2D row/row instance: the last tile stride is 1
and the outer stride is the inner stride times the inner extent (indeed
`[10, 1]`), and likewise for the subarray strides `[5, 1]`. -/
theorem claim_C7_witness :
    (tile_strides_el exSchema2D).getD 1 0 = 1 ∧
    (tile_strides_el exSchema2D).getD 0 0 =
      (tile_strides_el exSchema2D).getD 1 0 *
        (exSchema2D.dims.getD 1 dim0).ext.toNat ∧
    (sub_strides_el exSchema2D exSub2D).getD 1 0 = 1 ∧
    (sub_strides_el exSchema2D exSub2D).getD 0 0 =
      (sub_strides_el exSchema2D exSub2D).getD 1 0 *
        ((exSub2D.ranges.getD 1 (0, 0)).2 -
          (exSub2D.ranges.getD 1 (0, 0)).1 + 1).toNat := by
  have h := claim_C7 exSchema2D exSub2D (by decide) (by decide)
    (by decide) (by decide)
  exact ⟨(h.1 rfl).1, (h.1 rfl).2 0 (by decide), (h.2.2.1 rfl).1,
    (h.2.2.1 rfl).2 0 (by decide)⟩

/-- Characterization of the row-major fusion loop: it strips exactly the
maximal streak of fusable outer dimensions, taken from `m - 1` downward,
and multiplies the accumulator by their widths. -/
theorem fuseRow_spec (w : Nat → Nat) (cond : Nat → Bool) : ∀ m acc : Nat,
    fuseRow w cond m acc =
      (m - ((List.range m).reverse.takeWhile
          (fun k => cond (k + 1))).length,
        acc * (((List.range m).reverse.takeWhile
          (fun k => cond (k + 1))).map w).prod)
  | 0, acc => by simp [fuseRow]
  | m + 1, acc => by
      have hrev : (List.range (m + 1)).reverse =
          m :: (List.range m).reverse := by
        rw [List.range_succ]
        simp
      rw [fuseRow, hrev]
      by_cases hc : cond (m + 1)
      · rw [if_pos hc, fuseRow_spec w cond m (acc * w m)]
        have hlen : ((List.range m).reverse.takeWhile
            (fun k => cond (k + 1))).length ≤ m := by
          calc ((List.range m).reverse.takeWhile
              (fun k => cond (k + 1))).length
              ≤ (List.range m).reverse.length :=
                (List.takeWhile_sublist _).length_le
            _ = m := by simp
        simp only [List.takeWhile_cons, hc, if_true, List.length_cons,
          List.map_cons, List.prod_cons, Prod.mk.injEq]
        exact ⟨by omega, by ring⟩
      · rw [if_neg hc]
        simp [List.takeWhile_cons, hc]

/-- Characterization of the col-major fusion loop: it strips exactly the
maximal streak of fusable dimensions, from `ld` upward through the next
`r` dimensions, and multiplies the accumulator by their widths. -/
theorem fuseCol_spec (w : Nat → Nat) (cond : Nat → Bool) : ∀ r ld acc : Nat,
    fuseCol w cond r ld acc =
      (ld + ((List.range' ld r).takeWhile (fun j => cond (j - 1))).length,
        acc * (((List.range' ld r).takeWhile
          (fun j => cond (j - 1))).map w).prod)
  | 0, ld, acc => by simp [fuseCol]
  | r + 1, ld, acc => by
      rw [fuseCol, List.range'_succ]
      by_cases hc : cond (ld - 1)
      · rw [if_pos hc, fuseCol_spec w cond r (ld + 1) (acc * w ld)]
        simp only [List.takeWhile_cons, hc, if_true, List.length_cons,
          List.map_cons, List.prod_cons, Prod.mk.injEq]
        exact ⟨by omega, by ring⟩
      · rw [if_neg hc]
        simp [List.takeWhile_cons, hc]

/-- The claim-side intersection width `sub_in_tile[d].hi - sub_in_tile[d].lo
+ 1`, as a mathematical value. -/
def widthN (sch : Schema) (sub : Subarr) (id : Nat) (d : Nat) : Nat :=
  (((sub_in_tile sch sub id).getD d (0, 0)).2 -
    ((sub_in_tile sch sub id).getD d (0, 0)).1 + 1).toNat

/-- The claim-side `dim_ranges` upper bound `sub_in_tile[d].hi -
sub_in_tile[d].lo`, as a mathematical value. -/
def rangeHiN (sch : Schema) (sub : Subarr) (id : Nat) (d : Nat) : Nat :=
  (((sub_in_tile sch sub id).getD d (0, 0)).2 -
    ((sub_in_tile sch sub id).getD d (0, 0)).1).toNat

/-- The outer dimensions fused by the row-major branch: the maximal streak
of `k = D-2, D-3, ...` whose inner neighbour `k+1` passes the fusion
test. -/
def fusedRow (sch : Schema) (sub : Subarr) (id : Nat) : List Nat :=
  (List.range (sch.dims.length - 1)).reverse.takeWhile
    (fun k => planFuseCond sch sub id (k + 1))

/-- The dimensions fused by the col-major branch: the maximal streak of
`ld = 1, 2, ...` whose outer neighbour `ld-1` passes the fusion test. -/
def fusedCol (sch : Schema) (sub : Subarr) (id : Nat) : List Nat :=
  (List.range' 1 (sch.dims.length - 1)).takeWhile
    (fun j => planFuseCond sch sub id (j - 1))

/-- Claim C4: `copy_plan(id)` computes `copy_el` and `dim_ranges` by exactly
the claimed case analysis: for `D = 1`, `copy_el` is the intersection width
and `dim_ranges = [[0,0]]`; for `D > 1` with differing orders, `copy_el = 1`
and `dim_ranges[d] = [0, hi_d - lo_d]` for every dimension; for `D > 1` with
both orders ROW, `copy_el` is the width of the last dimension times the
widths of exactly the maximal streak of outer dimensions (from `D-2`
downward) whose inner neighbour spans the full tile extent and equals the
full subarray range, the non-fused dimensions forming `dim_ranges` (or
`[[0,0]]` when all fuse); and symmetrically from dimension 0 outward for
COL. -/
theorem claim_C4 (sch : Schema) (sub : Subarr) (id : Nat)
    (hw : ∀ d < sch.dims.length,
      0 ≤ ((sub_in_tile sch sub id).getD d (0, 0)).2 -
          ((sub_in_tile sch sub id).getD d (0, 0)).1 ∧
        ((sub_in_tile sch sub id).getD d (0, 0)).2 -
          ((sub_in_tile sch sub id).getD d (0, 0)).1 + 1 < 2 ^ 64) :
    (sch.dims.length = 1 →
      (copy_plan sch sub id).copyEl = widthN sch sub id 0 ∧
      (copy_plan sch sub id).dimRanges = [(0, 0)]) ∧
    (1 < sch.dims.length → sub.layout ≠ sch.cellOrder →
      (copy_plan sch sub id).copyEl = 1 ∧
      (copy_plan sch sub id).dimRanges =
        (List.range sch.dims.length).map
          (fun d => (0, rangeHiN sch sub id d))) ∧
    (1 < sch.dims.length → sub.layout = sch.cellOrder →
      sch.cellOrder = .row →
      (copy_plan sch sub id).copyEl =
        widthN sch sub id (sch.dims.length - 1) *
          ((fusedRow sch sub id).map (widthN sch sub id)).prod ∧
      ((fusedRow sch sub id).length = sch.dims.length - 1 →
        (copy_plan sch sub id).dimRanges = [(0, 0)]) ∧
      ((fusedRow sch sub id).length < sch.dims.length - 1 →
        (copy_plan sch sub id).dimRanges =
          (List.range
            (sch.dims.length - 1 - (fusedRow sch sub id).length)).map
            (fun d => (0, rangeHiN sch sub id d)))) ∧
    (1 < sch.dims.length → sub.layout = sch.cellOrder →
      sch.cellOrder = .col →
      (copy_plan sch sub id).copyEl =
        widthN sch sub id 0 *
          ((fusedCol sch sub id).map (widthN sch sub id)).prod ∧
      ((fusedCol sch sub id).length = sch.dims.length - 1 →
        (copy_plan sch sub id).dimRanges = [(0, 0)]) ∧
      ((fusedCol sch sub id).length < sch.dims.length - 1 →
        (copy_plan sch sub id).dimRanges =
          ((List.range sch.dims.length).drop
            (1 + (fusedCol sch sub id).length)).map
            (fun d => (0, rangeHiN sch sub id d)))) := by
  have hwU : ∀ d, d < sch.dims.length →
      planWidthU sch sub id d = widthN sch sub id d := by
    intro d hd
    exact toU64_eq_toNat (by have := (hw d hd).1; omega) (hw d hd).2
  have hrU : ∀ d, d < sch.dims.length →
      planRangeU sch sub id d = (0, rangeHiN sch sub id d) := by
    intro d hd
    unfold planRangeU rangeHiN
    rw [toU64_eq_toNat (hw d hd).1 (by have := (hw d hd).2; omega)]
  refine ⟨fun hD1 => ?_, fun hD hne => ?_, fun hD heq hro => ?_,
    fun hD heq hco => ?_⟩
  · unfold copy_plan
    rw [if_pos hD1]
    exact ⟨hwU 0 (by omega), rfl⟩
  · unfold copy_plan
    rw [if_neg (by omega), if_pos hne]
    refine ⟨rfl, ?_⟩
    refine List.map_congr_left ?_
    intro d hd
    exact hrU d (List.mem_range.mp hd)
  · have hfle : (fusedRow sch sub id).length ≤ sch.dims.length - 1 := by
      calc (fusedRow sch sub id).length
          ≤ (List.range (sch.dims.length - 1)).reverse.length :=
            (List.takeWhile_sublist _).length_le
        _ = sch.dims.length - 1 := by simp
    unfold copy_plan
    rw [if_neg (by omega), if_neg (by rw [heq, hro]; simp), hro]
    simp only
    rw [fuseRow_spec]
    refine ⟨?_, fun hall => ?_, fun hlt => ?_⟩
    · show planWidthU sch sub id (sch.dims.length - 1) *
        ((fusedRow sch sub id).map (planWidthU sch sub id)).prod = _
      rw [hwU (sch.dims.length - 1) (by omega)]
      refine congrArg _ (congrArg _ (List.map_congr_left ?_))
      intro k hk
      have hk2 : k ∈ (List.range (sch.dims.length - 1)).reverse :=
        (List.takeWhile_sublist _).subset hk
      have : k < sch.dims.length - 1 := by
        rw [List.mem_reverse, List.mem_range] at hk2
        exact hk2
      exact hwU k (by omega)
    · show (if sch.dims.length - 1 - (fusedRow sch sub id).length = 0
          then [(0, 0)]
          else (List.range
            (sch.dims.length - 1 - (fusedRow sch sub id).length)).map
            (planRangeU sch sub id)) = [(0, 0)]
      rw [if_pos (by omega)]
    · show (if sch.dims.length - 1 - (fusedRow sch sub id).length = 0
          then [(0, 0)]
          else (List.range
            (sch.dims.length - 1 - (fusedRow sch sub id).length)).map
            (planRangeU sch sub id)) = _
      rw [if_neg (by omega)]
      refine List.map_congr_left ?_
      intro d hd
      have : d < sch.dims.length - 1 - (fusedRow sch sub id).length :=
        List.mem_range.mp hd
      exact hrU d (by omega)
  · have hfle : (fusedCol sch sub id).length ≤ sch.dims.length - 1 := by
      calc (fusedCol sch sub id).length
          ≤ (List.range' 1 (sch.dims.length - 1)).length :=
            (List.takeWhile_sublist _).length_le
        _ = sch.dims.length - 1 := by simp
    unfold copy_plan
    rw [if_neg (by omega), if_neg (by rw [heq, hco]; simp), hco]
    simp only
    rw [fuseCol_spec]
    refine ⟨?_, fun hall => ?_, fun hlt => ?_⟩
    · show planWidthU sch sub id 0 *
        ((fusedCol sch sub id).map (planWidthU sch sub id)).prod = _
      rw [hwU 0 (by omega)]
      refine congrArg _ (congrArg _ (List.map_congr_left ?_))
      intro k hk
      have hk2 : k ∈ List.range' 1 (sch.dims.length - 1) :=
        (List.takeWhile_sublist _).subset hk
      have := List.mem_range'.mp hk2
      obtain ⟨i, hi, hik⟩ := this
      exact hwU k (by omega)
    · show (if 1 + (fusedCol sch sub id).length = sch.dims.length
          then [(0, 0)]
          else ((List.range sch.dims.length).drop
            (1 + (fusedCol sch sub id).length)).map
            (planRangeU sch sub id)) = [(0, 0)]
      rw [if_pos (by omega)]
    · show (if 1 + (fusedCol sch sub id).length = sch.dims.length
          then [(0, 0)]
          else ((List.range sch.dims.length).drop
            (1 + (fusedCol sch sub id).length)).map
            (planRangeU sch sub id)) = _
      rw [if_neg (by omega)]
      refine List.map_congr_left ?_
      intro d hd
      have hd2 : d ∈ List.range sch.dims.length :=
        (List.drop_subset _ _) hd
      exact hrU d (List.mem_range.mp hd2)

/-- Witness for C4 on the 2D row/row instance, tile 0: one fused check
fails (the intersection does not span the full subarray along dimension 1),
so nothing fuses, `copy_el` is the width 3 of the last dimension and
dimension 0 is retained with range `[0, 1]`. -/
theorem claim_C4_witness :
    (copy_plan exSchema2D exSub2D 0).copyEl =
      widthN exSchema2D exSub2D 0 (exSchema2D.dims.length - 1) *
        ((fusedRow exSchema2D exSub2D 0).map
          (widthN exSchema2D exSub2D 0)).prod ∧
    (copy_plan exSchema2D exSub2D 0).copyEl = 3 ∧
    (copy_plan exSchema2D exSub2D 0).dimRanges = [(0, 1)] := by
  have h := claim_C4 exSchema2D exSub2D 0 (by
    intro d hd
    have : d = 0 ∨ d = 1 := by
      simp [exSchema2D] at hd
      omega
    rcases this with h0 | h1
    · subst h0
      exact ⟨by decide, by decide⟩
    · subst h1
      exact ⟨by decide, by decide⟩)
  have h3 := (h.2.2.1 (by decide) rfl rfl)
  exact ⟨h3.1, by decide, by decide⟩

end DenseTiler
